import Mathlib

/-!
Shallow embedding of the key/value cache subsystem of the repository
(`mindnlp/transformers/cache_utils.py`): the `Cache` contract and its three
concrete strategies `DynamicCache`, `SinkCache` and `StaticCache`.

Modelling conventions:
- A per-layer cached tensor of logical shape `[batch, heads, seq, head_dim]`
  is modelled along its sequence axis as a `List` of rows, each row being the
  slice along the head dimension (`List Int`).  The batch and head axes are
  dropped: every operation of the source either broadcasts over them or
  leaves them untouched, so one representative slice captures the behaviour.
- Numeric values are exact integers: dtype conversions of the source
  (float32 upcast and cast back) are identities in the exact model, and
  `unsqueeze(0)` only adds a broadcast batch axis that the model drops.
- Python slicing with possibly negative indices is made explicit
  (`pySliceFrom`, `pySliceToNegEnd`).
- Python exceptions are modelled with `Except String`.  Methods that
  mutate state before raising return the mutated state together with the
  `Except` result.
-/

namespace CacheUtils

/-- A row of a cached tensor: the slice along the head dimension at one
sequence position. -/
abbrev Row := List Int

/-- A per-layer cached tensor: its rows along the sequence axis. -/
abbrev Tensor := List Row

/-- Python slice `x[i:]` where the start index `i` may be negative. -/
def pySliceFrom (i : Int) (xs : List α) : List α :=
  if 0 ≤ i then xs.drop i.toNat
  else xs.drop (xs.length - (-i).toNat)

/-- Python slice `x[a:-b]` with a nonnegative start `a` and end written as the
negative index `-b` (for `b = 0` the slice `x[a:0]` is empty). -/
def pySliceToNegEnd (a b : Nat) (xs : List α) : List α :=
  if b = 0 then []
  else (xs.take (xs.length - b)).drop a

/-- Elementwise product of two rows. -/
def rowMul (a b : Row) : Row := List.zipWith (fun x y => x * y) a b

/-- Elementwise sum of two rows. -/
def rowAdd (a b : Row) : Row := List.zipWith (fun x y => x + y) a b

/-- Elementwise (broadcast) product of two tensors. -/
def tMul (a b : Tensor) : Tensor := List.zipWith rowMul a b

/-- Elementwise (broadcast) sum of two tensors. -/
def tAdd (a b : Tensor) : Tensor := List.zipWith rowAdd a b

/-- Elementwise negation of a tensor. -/
def tNeg (a : Tensor) : Tensor := a.map (fun r => r.map (fun x => -x))

/-- The optional `cache_kwargs` dictionary: `dict.get` on an absent key
yields `none`.  The field `p_rotation_size` models the source key
`partial_rotation_size`. -/
structure CacheKwargs where
  sin : Option Tensor := none
  cos : Option Tensor := none
  p_rotation_size : Option Nat := none
  cache_position : Option (List Nat) := none

/-- `Cache.get_usable_length`, factored over the two quantities the source
reads from `self`: `get_max_length()` and `get_seq_length(layer_idx)`.  The
result is an `Int` because `max_length - new_seq_length` may be negative. -/
def get_usable_length_of (max_length : Option Nat) (previous_seq_length : Nat)
    (new_seq_length : Nat) : Int :=
  match max_length with
  | some m =>
    if previous_seq_length + new_seq_length > m then (m : Int) - (new_seq_length : Int)
    else previous_seq_length
  | none => previous_seq_length

/-! ## DynamicCache -/

/-- `DynamicCache`: per-layer growing key/value buffers plus the seen-token
counter. -/
structure DynamicCache where
  key_cache : List Tensor
  value_cache : List Tensor
  seen_tokens : Nat

/-- `DynamicCache.__init__`: empty caches, zero seen tokens. -/
def DynamicCache.empty : DynamicCache := ⟨[], [], 0⟩

/-- `DynamicCache.get_seq_length`. -/
def DynamicCache.get_seq_length (c : DynamicCache) (layer_idx : Nat) : Nat :=
  if c.key_cache.length ≤ layer_idx then 0
  else (c.key_cache.getD layer_idx []).length

/-- `DynamicCache.get_max_length`: always `None`. -/
def DynamicCache.get_max_length (_c : DynamicCache) : Option Nat := none

/-- `DynamicCache.get_usable_length` (inherited from `Cache`). -/
def DynamicCache.get_usable_length (c : DynamicCache) (new_seq_length : Nat)
    (layer_idx : Nat) : Int :=
  get_usable_length_of c.get_max_length (c.get_seq_length layer_idx) new_seq_length

/-- `DynamicCache.update`.  The state is mutated first (seen-token counter,
then append or concatenate); the final `return self.key_cache[layer_idx]`
raises `IndexError` when `layer_idx` still lies beyond the list, which the
model renders as an `Except.error` next to the already-mutated state. -/
def DynamicCache.update (c : DynamicCache) (key_states value_states : Tensor)
    (layer_idx : Nat) (_cache_kwargs : Option CacheKwargs) :
    DynamicCache × Except String (Tensor × Tensor) :=
  let c := if layer_idx = 0 then
    { c with seen_tokens := c.seen_tokens + key_states.length } else c
  let c :=
    if c.key_cache.length ≤ layer_idx then
      { c with key_cache := c.key_cache ++ [key_states],
               value_cache := c.value_cache ++ [value_states] }
    else
      { c with
        key_cache := c.key_cache.set layer_idx
          (c.key_cache.getD layer_idx [] ++ key_states),
        value_cache := c.value_cache.set layer_idx
          (c.value_cache.getD layer_idx [] ++ value_states) }
  (c, match c.key_cache.get? layer_idx, c.value_cache.get? layer_idx with
      | some k, some v => Except.ok (k, v)
      | _, _ => Except.error "IndexError: list index out of range")

/-- `DynamicCache.to_legacy_cache`: flatten the layers in order into a
sequence of (key, value) pairs. -/
def DynamicCache.to_legacy_cache (c : DynamicCache) : List (Tensor × Tensor) :=
  (List.range c.key_cache.length).map
    (fun layer_idx => (c.key_cache.getD layer_idx [], c.value_cache.getD layer_idx []))

/-- `DynamicCache.from_legacy_cache`: replay `update` once per layer in
order on a fresh cache. -/
def DynamicCache.from_legacy_cache (past_key_values : Option (List (Tensor × Tensor))) :
    DynamicCache :=
  match past_key_values with
  | none => DynamicCache.empty
  | some layers =>
    (layers.foldl
      (fun (acc : DynamicCache × Nat) kv =>
        (((acc.1).update kv.1 kv.2 acc.2 none).1, acc.2 + 1))
      (DynamicCache.empty, 0)).1

/-- Run a sequence of `DynamicCache.update` calls against one layer,
keeping the last call's returned (key, value) pair. -/
def DynamicCache.runLayer (st : DynamicCache) (layer_idx : Nat)
    (chunks : List (Tensor × Tensor)) : DynamicCache × Except String (Tensor × Tensor) :=
  chunks.foldl (fun acc kv => (acc.1).update kv.1 kv.2 layer_idx none)
    (st, Except.error "no update has been performed")

/-! ## SinkCache -/

/-- `SinkCache`: bounded sliding window of length `window_length` with a
preserved prefix of `num_sink_tokens` sink tokens; `cos_sin_cache` memoizes
the rerotation pair per incoming chunk length. -/
structure SinkCache where
  key_cache : List Tensor
  value_cache : List Tensor
  window_length : Nat
  num_sink_tokens : Nat
  cos_sin_cache : List (Nat × (Tensor × Tensor))
  seen_tokens : Nat

/-- `SinkCache.__init__`. -/
def SinkCache.new (window_length num_sink_tokens : Nat) : SinkCache :=
  ⟨[], [], window_length, num_sink_tokens, [], 0⟩

/-- `SinkCache._rotate_half` acting on one row along the head dimension:
split the row in half and form `concat(-second_half, first_half)`. -/
def rotate_half_row (x : Row) : Row :=
  let x1 := x.take (x.length / 2)
  let x2 := x.drop (x.length / 2)
  x2.map (fun a => -a) ++ x1

/-- `SinkCache._rotate_half` on a tensor (the last dimension is the rows). -/
def SinkCache.rotate_half (x : Tensor) : Tensor := x.map rotate_half_row

/-- `SinkCache._apply_key_rotary_pos_emb`:
`key_states * cos + rotate_half(key_states) * sin`. -/
def SinkCache.apply_key_rotary_pos_emb (key_states cos sin : Tensor) : Tensor :=
  tAdd (tMul key_states cos) (tMul (SinkCache.rotate_half key_states) sin)

/-- The cache-miss body of `SinkCache._get_rerotation_cos_sin` for incoming
chunk length `c`:
`original_* = *[S + c :]`, `shifted_* = *[S : -c]`,
`rerotation_cos = original_cos*shifted_cos + original_sin*shifted_sin`,
`rerotation_sin = -original_sin*shifted_cos + original_cos*shifted_sin`.
The float32 upcast, the cast back to the key dtype and `unsqueeze(0)` are
identities in the exact model. -/
def computeRerotation (num_sink_tokens c : Nat) (cos sin : Tensor) :
    Tensor × Tensor :=
  let original_cos := cos.drop (num_sink_tokens + c)
  let shifted_cos := pySliceToNegEnd num_sink_tokens c cos
  let original_sin := sin.drop (num_sink_tokens + c)
  let shifted_sin := pySliceToNegEnd num_sink_tokens c sin
  let rerotation_cos := tAdd (tMul original_cos shifted_cos) (tMul original_sin shifted_sin)
  let rerotation_sin := tAdd (tMul (tNeg original_sin) shifted_cos) (tMul original_cos shifted_sin)
  (rerotation_cos, rerotation_sin)

/-- `SinkCache._get_rerotation_cos_sin`: consult `cos_sin_cache` under the
incoming chunk length `c`, computing and memoizing on a miss. -/
def SinkCache.get_rerotation_cos_sin (st : SinkCache) (c : Nat) (cos sin : Tensor) :
    SinkCache × (Tensor × Tensor) :=
  match st.cos_sin_cache.lookup c with
  | some p => (st, p)
  | none =>
    let p := computeRerotation st.num_sink_tokens c cos sin
    ({ st with cos_sin_cache := (c, p) :: st.cos_sin_cache }, p)

/-- `SinkCache.get_seq_length`. -/
def SinkCache.get_seq_length (st : SinkCache) (layer_idx : Nat) : Nat :=
  if st.key_cache.length ≤ layer_idx then 0
  else (st.key_cache.getD layer_idx []).length

/-- `SinkCache.get_max_length`: always `window_length`. -/
def SinkCache.get_max_length (st : SinkCache) : Option Nat := some st.window_length

/-- `SinkCache.get_usable_length` (inherited from `Cache`). -/
def SinkCache.get_usable_length (st : SinkCache) (new_seq_length : Nat)
    (layer_idx : Nat) : Int :=
  get_usable_length_of st.get_max_length (st.get_seq_length layer_idx) new_seq_length

/-- The `if using_rope:` block inside the shifting branch of
`SinkCache.update`: when both RoPE tables were supplied, recompute the key
rotation of the kept positions (rotating only the leading
`partial_rotation_size` slice of each row when that kwarg is set), threading
the possibly-extended memoization table. -/
def SinkCache.rerotateKeep (st : SinkCache) (c : Nat) (cos sin : Option Tensor)
    (p_rotation_size : Option Nat) (keys_to_keep : Tensor) : SinkCache × Tensor :=
  if cos.isSome && sin.isSome then
    let cosW := (cos.getD []).take st.window_length
    let sinW := (sin.getD []).take st.window_length
    let stR := st.get_rerotation_cos_sin c cosW sinW
    match p_rotation_size with
    | some r =>
      let keys_rot := keys_to_keep.map (fun row => row.take r)
      let keys_pass := keys_to_keep.map (fun row => row.drop r)
      let rotated := SinkCache.apply_key_rotary_pos_emb keys_rot stR.2.1 stR.2.2
      (stR.1, List.zipWith (fun a b => a ++ b) rotated keys_pass)
    | none =>
      (stR.1, SinkCache.apply_key_rotary_pos_emb keys_to_keep stR.2.1 stR.2.2)
  else (st, keys_to_keep)

/-- The body of `SinkCache.update` once `cache_kwargs` has been
dereferenced (`kw` holds the results of the three `cache_kwargs.get` calls).
Branches exactly as the source: empty layer slot (append), growing cache
(concatenate), or shifting cache (keep the last
`window_length - num_sink_tokens - chunk` positions, rerotate them when
RoPE tables were supplied via `rerotateKeep`, and concatenate
sinks ++ kept ++ incoming). -/
def SinkCache.updateWith (st : SinkCache) (key_states value_states : Tensor)
    (layer_idx : Nat) (kw : CacheKwargs) : SinkCache × Tensor × Tensor :=
  let sin := kw.sin
  let cos := kw.cos
  let p_rotation_size := kw.p_rotation_size
  let st := if layer_idx = 0 then
    { st with seen_tokens := st.seen_tokens + key_states.length } else st
  let st :=
    if st.key_cache.length ≤ layer_idx then
      { st with key_cache := st.key_cache ++ [key_states],
                value_cache := st.value_cache ++ [value_states] }
    else if key_states.length + st.get_seq_length layer_idx < st.window_length then
      { st with
        key_cache := st.key_cache.set layer_idx
          (st.key_cache.getD layer_idx [] ++ key_states),
        value_cache := st.value_cache.set layer_idx
          (st.value_cache.getD layer_idx [] ++ value_states) }
    else
      let old_keys := st.key_cache.getD layer_idx []
      let keys_to_keep := pySliceFrom
        ((st.num_sink_tokens : Int) + key_states.length - st.window_length) old_keys
      let stKeep := st.rerotateKeep key_states.length cos sin p_rotation_size keys_to_keep
      let st1 := stKeep.1
      let sink_keys := old_keys.take st1.num_sink_tokens
      let st2 := { st1 with
        key_cache := st1.key_cache.set layer_idx (sink_keys ++ stKeep.2 ++ key_states) }
      let old_values := st2.value_cache.getD layer_idx []
      let sink_values := old_values.take st2.num_sink_tokens
      let values_to_keep := pySliceFrom
        ((st2.num_sink_tokens : Int) + value_states.length - st2.window_length) old_values
      { st2 with
        value_cache := st2.value_cache.set layer_idx
          (sink_values ++ values_to_keep ++ value_states) }
  (st, st.key_cache.getD layer_idx [], st.value_cache.getD layer_idx [])

/-- `SinkCache.update`: the source dereferences `cache_kwargs` with
`cache_kwargs.get(...)` before anything else, so a `None` map raises
`AttributeError` with the state untouched. -/
def SinkCache.update (st : SinkCache) (key_states value_states : Tensor)
    (layer_idx : Nat) (cache_kwargs : Option CacheKwargs) :
    Except String (SinkCache × Tensor × Tensor) :=
  match cache_kwargs with
  | none => Except.error "AttributeError: NoneType object has no attribute get"
  | some kw => Except.ok (st.updateWith key_states value_states layer_idx kw)

/-- Run a sequence of `SinkCache.update` calls (each already supplied with a
non-`None` kwargs map), keeping only the evolving state. -/
def SinkCache.runUpdates (st : SinkCache)
    (steps : List (Tensor × Tensor × Nat × CacheKwargs)) : SinkCache :=
  steps.foldl (fun s q => (s.updateWith q.1 q.2.1 q.2.2.1 q.2.2.2).1) st

/-! ## StaticCache -/

/-- `StaticCache`: a pre-allocated buffer of `max_cache_len` sequence slots
(the batch and head axes are dropped as everywhere in the model; the row
width is `head_dim`). -/
structure StaticCache where
  max_batch_size : Nat
  num_key_value_heads : Nat
  head_dim : Nat
  max_cache_len : Nat
  key_cache : Tensor
  value_cache : Tensor

/-- `StaticCache.__init__`: zero-filled key and value buffers of
`max_cache_len` slots. -/
def StaticCache.new (max_batch_size num_key_value_heads head_dim max_cache_len : Nat) :
    StaticCache :=
  { max_batch_size := max_batch_size
    num_key_value_heads := num_key_value_heads
    head_dim := head_dim
    max_cache_len := max_cache_len
    key_cache := List.replicate max_cache_len (List.replicate head_dim 0)
    value_cache := List.replicate max_cache_len (List.replicate head_dim 0) }

/-- The fancy-index assignment `buf[:, :, positions] = vals` along the
sequence axis: write `vals[i]` into slot `positions[i]` for each `i`. -/
def scatterSeq (buf : Tensor) (positions : List Nat) (vals : Tensor) : Tensor :=
  (positions.zip vals).foldl (fun b pv => b.set pv.1 pv.2) buf

/-- The body of `StaticCache.update` once `cache_kwargs` has been
dereferenced: read `cache_position`, write the incoming states into exactly
those sequence slots of both buffers, and return the entire buffers. -/
def StaticCache.updateWith (st : StaticCache) (key_states value_states : Tensor)
    (_layer_idx : Nat) (kw : CacheKwargs) : Except String (StaticCache × Tensor × Tensor) :=
  match kw.cache_position with
  | none => Except.error "TypeError: tensor indices must not be None"
  | some new_cache_positions =>
    let k_out := scatterSeq st.key_cache new_cache_positions key_states
    let v_out := scatterSeq st.value_cache new_cache_positions value_states
    let st := { st with key_cache := k_out, value_cache := v_out }
    Except.ok (st, k_out, v_out)

/-- `StaticCache.update`: like `SinkCache.update`, a `None` kwargs map is
dereferenced unconditionally and raises before any state change. -/
def StaticCache.update (st : StaticCache) (key_states value_states : Tensor)
    (layer_idx : Nat) (cache_kwargs : Option CacheKwargs) :
    Except String (StaticCache × Tensor × Tensor) :=
  match cache_kwargs with
  | none => Except.error "AttributeError: NoneType object has no attribute get"
  | some kw => st.updateWith key_states value_states layer_idx kw

/-- `StaticCache.get_seq_length`: always raises `ValueError`. -/
def StaticCache.get_seq_length (_st : StaticCache) (_layer_idx : Nat) :
    Except String Nat :=
  Except.error "get_seq_length is not implemented for StaticCache."

/-- `StaticCache.get_usable_length`: overrides the base formula and always
raises `ValueError`. -/
def StaticCache.get_usable_length (_st : StaticCache)
    (_new_sequence_length : Option Nat) (_layer_idx : Nat) : Except String Nat :=
  Except.error "get_seq_length is not implemented for StaticCache."

/-- `StaticCache.get_max_length`: returns `max_cache_len`. -/
def StaticCache.get_max_length (st : StaticCache) : Option Nat := some st.max_cache_len

/-- `StaticCache.to_legacy_cache`: a dummy that always returns `None`. -/
def StaticCache.to_legacy_cache (_st : StaticCache) : Option (List (Tensor × Tensor)) :=
  none

/-! ## Theorems -/

/-- `SinkCache._get_rerotation_cos_sin` only ever changes the memoization
table: the seen-token counter is untouched. -/
theorem get_rerotation_seen (st : SinkCache) (c : Nat) (cos sin : Tensor) :
    ((st.get_rerotation_cos_sin c cos sin).1).seen_tokens = st.seen_tokens := by
  unfold SinkCache.get_rerotation_cos_sin
  cases h : st.cos_sin_cache.lookup c <;> simp [h]

/-- `SinkCache._get_rerotation_cos_sin` leaves the key cache untouched. -/
theorem get_rerotation_key_cache (st : SinkCache) (c : Nat) (cos sin : Tensor) :
    ((st.get_rerotation_cos_sin c cos sin).1).key_cache = st.key_cache := by
  unfold SinkCache.get_rerotation_cos_sin
  cases h : st.cos_sin_cache.lookup c <;> simp [h]

/-- `SinkCache._get_rerotation_cos_sin` leaves the value cache untouched. -/
theorem get_rerotation_value_cache (st : SinkCache) (c : Nat) (cos sin : Tensor) :
    ((st.get_rerotation_cos_sin c cos sin).1).value_cache = st.value_cache := by
  unfold SinkCache.get_rerotation_cos_sin
  cases h : st.cos_sin_cache.lookup c <;> simp [h]

/-- `SinkCache._get_rerotation_cos_sin` leaves the window length untouched. -/
theorem get_rerotation_window (st : SinkCache) (c : Nat) (cos sin : Tensor) :
    ((st.get_rerotation_cos_sin c cos sin).1).window_length = st.window_length := by
  unfold SinkCache.get_rerotation_cos_sin
  cases h : st.cos_sin_cache.lookup c <;> simp [h]

/-- `SinkCache._get_rerotation_cos_sin` leaves the sink count untouched. -/
theorem get_rerotation_sinks (st : SinkCache) (c : Nat) (cos sin : Tensor) :
    ((st.get_rerotation_cos_sin c cos sin).1).num_sink_tokens = st.num_sink_tokens := by
  unfold SinkCache.get_rerotation_cos_sin
  cases h : st.cos_sin_cache.lookup c <;> simp [h]

/-- The rope block threads only the memoization table: the seen-token
counter of the returned state is unchanged. -/
theorem rerotateKeep_seen (st : SinkCache) (c : Nat) (cos sin : Option Tensor)
    (pr : Option Nat) (keep : Tensor) :
    ((st.rerotateKeep c cos sin pr keep).1).seen_tokens = st.seen_tokens := by
  unfold SinkCache.rerotateKeep
  split
  · split <;> simp [get_rerotation_seen]
  · rfl

/-- The rope block leaves the key cache unchanged. -/
theorem rerotateKeep_key_cache (st : SinkCache) (c : Nat) (cos sin : Option Tensor)
    (pr : Option Nat) (keep : Tensor) :
    ((st.rerotateKeep c cos sin pr keep).1).key_cache = st.key_cache := by
  unfold SinkCache.rerotateKeep
  split
  · split <;> simp [get_rerotation_key_cache]
  · rfl

/-- The rope block leaves the value cache unchanged. -/
theorem rerotateKeep_value_cache (st : SinkCache) (c : Nat) (cos sin : Option Tensor)
    (pr : Option Nat) (keep : Tensor) :
    ((st.rerotateKeep c cos sin pr keep).1).value_cache = st.value_cache := by
  unfold SinkCache.rerotateKeep
  split
  · split <;> simp [get_rerotation_value_cache]
  · rfl

/-- The rope block leaves the window length unchanged. -/
theorem rerotateKeep_window (st : SinkCache) (c : Nat) (cos sin : Option Tensor)
    (pr : Option Nat) (keep : Tensor) :
    ((st.rerotateKeep c cos sin pr keep).1).window_length = st.window_length := by
  unfold SinkCache.rerotateKeep
  split
  · split <;> simp [get_rerotation_window]
  · rfl

/-- The rope block leaves the sink count unchanged. -/
theorem rerotateKeep_sinks (st : SinkCache) (c : Nat) (cos sin : Option Tensor)
    (pr : Option Nat) (keep : Tensor) :
    ((st.rerotateKeep c cos sin pr keep).1).num_sink_tokens = st.num_sink_tokens := by
  unfold SinkCache.rerotateKeep
  split
  · split <;> simp [get_rerotation_sinks]
  · rfl

/-- Rotating keys never lengthens the kept segment (elementwise products
and sums can only truncate). -/
theorem apply_key_rotary_length_le (key cos sin : Tensor) :
    (SinkCache.apply_key_rotary_pos_emb key cos sin).length ≤ key.length := by
  simp [SinkCache.apply_key_rotary_pos_emb, tAdd, tMul, SinkCache.rotate_half,
    List.length_zipWith, List.length_map]

/-- The rope block never lengthens the kept segment. -/
theorem rerotateKeep_snd_length_le (st : SinkCache) (c : Nat) (cos sin : Option Tensor)
    (pr : Option Nat) (keep : Tensor) :
    ((st.rerotateKeep c cos sin pr keep).2).length ≤ keep.length := by
  unfold SinkCache.rerotateKeep
  split
  · split
    · simp [SinkCache.apply_key_rotary_pos_emb, tAdd, tMul, SinkCache.rotate_half,
        List.length_zipWith, List.length_map]
    · exact apply_key_rotary_length_le _ _ _
  · exact le_refl _

/-- Length of a Python tail slice with a negative start index. -/
theorem pySliceFrom_length_le (i : Int) (hi : i < 0) (xs : List α) :
    (pySliceFrom i xs).length ≤ (-i).toNat := by
  unfold pySliceFrom
  rw [if_neg (by omega)]
  simp only [List.length_drop]
  omega

/-- The kept segment of the shifting branch has at most
`window - sinks - chunk` rows when `chunk + sinks < window`. -/
theorem keys_to_keep_length_le (S c W : Nat) (old : List α) (h : c + S < W) :
    (pySliceFrom ((S : Int) + (c : Int) - (W : Int)) old).length ≤ W - S - c := by
  have hb := pySliceFrom_length_le ((S : Int) + (c : Int) - (W : Int)) (by omega) old
  omega

/-- Claim C4: for a bounded cache (`get_max_length()` not `None`) with
current length `L` and incoming chunk `c`, `get_usable_length` returns
`max - c` when `L + c > max` and `L` otherwise; for an unbounded cache it
always returns `L`.  Stated for the shared formula and for its `SinkCache`
(bounded) and `DynamicCache` (unbounded) instantiations. -/
theorem cache_get_usable_length_formula :
    (∀ (m L c : Nat),
      (L + c > m → get_usable_length_of (some m) L c = (m : Int) - (c : Int)) ∧
      (¬ L + c > m → get_usable_length_of (some m) L c = (L : Int))) ∧
    (∀ (L c : Nat), get_usable_length_of none L c = (L : Int)) ∧
    (∀ (st : SinkCache) (lay c : Nat),
      (st.get_seq_length lay + c > st.window_length →
        st.get_usable_length c lay = (st.window_length : Int) - (c : Int)) ∧
      (¬ st.get_seq_length lay + c > st.window_length →
        st.get_usable_length c lay = (st.get_seq_length lay : Int))) ∧
    (∀ (st : DynamicCache) (lay c : Nat),
      st.get_usable_length c lay = (st.get_seq_length lay : Int)) := by
  refine ⟨fun m L c => ⟨fun h => ?_, fun h => ?_⟩, fun L c => rfl,
    fun st lay c => ⟨fun h => ?_, fun h => ?_⟩, fun st lay c => rfl⟩
  · simp [get_usable_length_of, h]
  · simp [get_usable_length_of, h]
  · simp [SinkCache.get_usable_length, SinkCache.get_max_length,
      get_usable_length_of, h]
  · simp [SinkCache.get_usable_length, SinkCache.get_max_length,
      get_usable_length_of, h]

/-- Witness for C4 at concrete inputs: bounded cache with `L + c > max`
(`max = 5`, `L = 4`, `c = 3` gives `2`) and with `L + c ≤ max`
(`L = 1`, `c = 3` gives `1`). -/
theorem cache_get_usable_length_formula_witness :
    get_usable_length_of (some 5) 4 3 = 2 ∧ get_usable_length_of (some 5) 1 3 = 1 := by
  constructor
  · have h := (cache_get_usable_length_formula.1 5 4 3).1 (by decide)
    simpa using h
  · have h := (cache_get_usable_length_formula.1 5 1 3).2 (by decide)
    simpa using h

/-- Claim C8: `StaticCache.get_seq_length` and
`StaticCache.get_usable_length` raise for every argument, and
`StaticCache.to_legacy_cache` never raises and always returns `None`. -/
theorem staticcache_unsupported_and_legacy :
    (∀ (st : StaticCache) (lay : Nat),
      st.get_seq_length lay =
        Except.error "get_seq_length is not implemented for StaticCache.") ∧
    (∀ (st : StaticCache) (n : Option Nat) (lay : Nat),
      st.get_usable_length n lay =
        Except.error "get_seq_length is not implemented for StaticCache.") ∧
    (∀ st : StaticCache, st.to_legacy_cache = none) :=
  ⟨fun _ _ => rfl, fun _ _ _ => rfl, fun _ => rfl⟩

/-- Claim C9: for `DynamicCache` and `SinkCache`, `update` increments
`seen_tokens` by the incoming chunk length exactly when `layer_idx = 0`, and
leaves it unchanged otherwise. -/
theorem seen_tokens_layer_zero_only :
    (∀ (c : DynamicCache) (k v : Tensor) (i : Nat) (kw : Option CacheKwargs),
      ((c.update k v i kw).1).seen_tokens =
        c.seen_tokens + (if i = 0 then k.length else 0)) ∧
    (∀ (st : SinkCache) (k v : Tensor) (i : Nat) (kw : CacheKwargs),
      ((st.updateWith k v i kw).1).seen_tokens =
        st.seen_tokens + (if i = 0 then k.length else 0)) := by
  constructor
  · intro c k v i kw
    simp only [DynamicCache.update]
    by_cases hi : i = 0 <;> simp only [hi, if_true, if_false, ite_true, ite_false] <;>
      split <;> simp
  · intro st k v i kw
    simp only [SinkCache.updateWith]
    by_cases hi : i = 0 <;> simp only [hi, if_true, if_false, ite_true, ite_false] <;>
      split <;> (try split) <;>
      simp [rerotateKeep_seen]

/-- `DynamicCache.update` in append mode: when the layer index is at or
beyond the current layer count, both lists are extended at the end. -/
theorem update_append (c : DynamicCache) (k v : Tensor) (i : Nat)
    (kw : Option CacheKwargs) (h : c.key_cache.length ≤ i) :
    ((c.update k v i kw).1).key_cache = c.key_cache ++ [k] ∧
    ((c.update k v i kw).1).value_cache = c.value_cache ++ [v] := by
  by_cases hi : i = 0
  · subst hi
    simp only [DynamicCache.update]
    simp [h]
  · simp only [DynamicCache.update]
    simp [hi, h]

/-- Replaying `update` with consecutive layer indices (starting at the
current layer count) appends the supplied layers in order. -/
theorem replay_caches (layers : List (Tensor × Tensor)) :
    ∀ (st : DynamicCache) (n : Nat),
    st.key_cache.length = n → st.value_cache.length = n →
    (((layers.foldl (fun (acc : DynamicCache × Nat) kv =>
        (((acc.1).update kv.1 kv.2 acc.2 none).1, acc.2 + 1)) (st, n)).1).key_cache
          = st.key_cache ++ layers.map Prod.fst) ∧
    (((layers.foldl (fun (acc : DynamicCache × Nat) kv =>
        (((acc.1).update kv.1 kv.2 acc.2 none).1, acc.2 + 1)) (st, n)).1).value_cache
          = st.value_cache ++ layers.map Prod.snd) := by
  induction layers with
  | nil => intro st n h1 h2; simp
  | cons kv rest ih =>
    intro st n h1 h2
    have happ := update_append st kv.1 kv.2 n none (le_of_eq h1)
    have h1' : ((st.update kv.1 kv.2 n none).1).key_cache.length = n + 1 := by
      rw [happ.1]; simp [h1]
    have h2' : ((st.update kv.1 kv.2 n none).1).value_cache.length = n + 1 := by
      rw [happ.2]; simp [h2]
    have hrest := ih ((st.update kv.1 kv.2 n none).1) (n + 1) h1' h2'
    simp only [List.foldl_cons]
    constructor
    · rw [hrest.1, happ.1]; simp
    · rw [hrest.2, happ.2]; simp

/-- The `to_legacy_cache` traversal over layer indices is the pointwise zip
of the two layer lists whenever they have equal lengths. -/
theorem range_map_getD_zip : ∀ (xs ys : List α) (_h : ys.length = xs.length) (d : α),
    (List.range xs.length).map (fun i => (xs.getD i d, ys.getD i d)) = xs.zip ys
  | [], ys, _h, d => by simp
  | x :: xs, [], h, d => by simp at h
  | x :: xs, y :: ys, h, d => by
    simp only [List.length_cons, List.range_succ_eq_map, List.map_cons, List.map_map,
      List.getD_cons_zero, List.zip_cons_cons]
    congr 1
    have hrec := range_map_getD_zip xs ys (by simpa using h) d
    simp only [Function.comp_def, Nat.succ_eq_add_one, List.getD_cons_succ]
    exact hrec

/-- Claim C3: for every populated `DynamicCache` (with as many value layers
as key layers), `from_legacy_cache (to_legacy_cache c)` restores exactly the
per-layer key and value tensors, and `to_legacy_cache` flattens the layers
in order into (key, value) pairs. -/
theorem dynamiccache_legacy_round_trip (c : DynamicCache)
    (h : c.value_cache.length = c.key_cache.length) :
    (DynamicCache.from_legacy_cache (some c.to_legacy_cache)).key_cache = c.key_cache ∧
    (DynamicCache.from_legacy_cache (some c.to_legacy_cache)).value_cache = c.value_cache ∧
    c.to_legacy_cache = c.key_cache.zip c.value_cache := by
  have hzip : c.to_legacy_cache = c.key_cache.zip c.value_cache :=
    range_map_getD_zip c.key_cache c.value_cache h []
  have hr := replay_caches c.to_legacy_cache DynamicCache.empty 0 rfl rfl
  refine ⟨?_, ?_, hzip⟩
  · rw [DynamicCache.from_legacy_cache, hr.1, hzip]
    simp [DynamicCache.empty, List.map_fst_zip _ _ (le_of_eq h.symm)]
  · rw [DynamicCache.from_legacy_cache, hr.2, hzip]
    simp [DynamicCache.empty, List.map_snd_zip _ _ (le_of_eq h)]

/-- Witness for C3 on a concrete two-layer cache. -/
theorem dynamiccache_legacy_round_trip_witness :
    (DynamicCache.from_legacy_cache
        (some (DynamicCache.mk [[[1]], [[2], [3]]] [[[4]], [[5], [6]]] 9).to_legacy_cache)).key_cache
      = [[[1]], [[2], [3]]] ∧
    (DynamicCache.from_legacy_cache
        (some (DynamicCache.mk [[[1]], [[2], [3]]] [[[4]], [[5], [6]]] 9).to_legacy_cache)).value_cache
      = [[[4]], [[5], [6]]] :=
  ⟨(dynamiccache_legacy_round_trip
      (DynamicCache.mk [[[1]], [[2], [3]]] [[[4]], [[5], [6]]] 9) (by decide)).1,
   (dynamiccache_legacy_round_trip
      (DynamicCache.mk [[[1]], [[2], [3]]] [[[4]], [[5], [6]]] 9) (by decide)).2.1⟩

/-- Claim C5 fails as stated: on a fresh `DynamicCache`, two sequential
updates on layer 1 with chunk lengths 2 and 3 leave
`get_seq_length(1) = 3`, not `2 + 3 = 5` (each call appends a fresh slot at
the end of the list instead of concatenating into layer 1). -/
theorem dynamiccache_growth_counterexample :
    ((((DynamicCache.empty.update [[1], [1]] [[1], [1]] 1 none).1).update
        [[2], [2], [2]] [[2], [2], [2]] 1 none).1).get_seq_length 1 = 3 ∧
    ¬ ((((DynamicCache.empty.update [[1], [1]] [[1], [1]] 1 none).1).update
        [[2], [2], [2]] [[2], [2], [2]] 1 none).1).get_seq_length 1 = 2 + 3 := by
  decide

/-- Folding updates over a single-layer cache at layer 0 concatenates all
chunks and returns the accumulated tensors. -/
theorem runLayer0_state (chunks : List (Tensor × Tensor)) :
    ∀ (K V : Tensor) (t : Nat) (r : Except String (Tensor × Tensor)),
    (chunks.foldl (fun acc kv => (acc.1).update kv.1 kv.2 0 none)
        ((⟨[K], [V], t⟩ : DynamicCache), r)) =
      (⟨[K ++ (chunks.map Prod.fst).flatten], [V ++ (chunks.map Prod.snd).flatten],
        t + (chunks.map (fun kv => kv.1.length)).sum⟩,
       if chunks.isEmpty then r
       else Except.ok (K ++ (chunks.map Prod.fst).flatten,
                       V ++ (chunks.map Prod.snd).flatten)) := by
  induction chunks with
  | nil => intro K V t r; simp
  | cons kv rest ih =>
    intro K V t r
    have hstep : (⟨[K], [V], t⟩ : DynamicCache).update kv.1 kv.2 0 none =
        (⟨[K ++ kv.1], [V ++ kv.2], t + kv.1.length⟩, Except.ok (K ++ kv.1, V ++ kv.2)) := by
      simp [DynamicCache.update]
    simp only [List.foldl_cons, hstep]
    rw [ih]
    rcases rest with _ | ⟨kv2, rest2⟩ <;>
      simp [List.append_assoc, Nat.add_assoc]

/-- Claim C5 (amended): for updates addressed to the next uninitialized
layer of a fresh `DynamicCache` — layer 0 — N sequential updates with chunk
lengths c1..cN give `get_seq_length(0) = c1 + ... + cN`, the last update
returns the full concatenation, and its key tensor's sequence length is
that sum; the first update stores the chunk directly and the rest
concatenate. -/
theorem dynamiccache_growth_invariant (chunks : List (Tensor × Tensor))
    (h : chunks ≠ []) :
    ((DynamicCache.empty.runLayer 0 chunks).1).get_seq_length 0
        = (chunks.map (fun kv => kv.1.length)).sum ∧
    (DynamicCache.empty.runLayer 0 chunks).2 =
      Except.ok ((chunks.map Prod.fst).flatten, (chunks.map Prod.snd).flatten) ∧
    ((chunks.map Prod.fst).flatten).length = (chunks.map (fun kv => kv.1.length)).sum := by
  rcases chunks with _ | ⟨kv, rest⟩
  · exact absurd rfl h
  · have hstep : DynamicCache.empty.update kv.1 kv.2 0 none =
        (⟨[kv.1], [kv.2], kv.1.length⟩, Except.ok (kv.1, kv.2)) := by
      simp [DynamicCache.update, DynamicCache.empty]
    unfold DynamicCache.runLayer
    simp only [List.foldl_cons, hstep]
    rw [runLayer0_state rest kv.1 kv.2 kv.1.length (Except.ok (kv.1, kv.2))]
    rcases rest with _ | ⟨kv2, rest2⟩ <;>
      simp [DynamicCache.get_seq_length, Function.comp_def, Nat.add_assoc]

/-- Witness for C5 (amended) with chunks of lengths 2 and 3 at layer 0. -/
theorem dynamiccache_growth_invariant_witness :
    ((DynamicCache.empty.runLayer 0
        [([[1], [1]], [[1], [1]]), ([[2], [2], [2]], [[2], [2], [2]])]).1).get_seq_length 0
      = 5 :=
  (dynamiccache_growth_invariant
    [([[1], [1]], [[1], [1]]), ([[2], [2], [2]], [[2], [2], [2]])] (by decide)).1

/-- Claim C10: with `cache_kwargs = None`, `update` raises on `SinkCache`
and `StaticCache` (both dereference the map before any branch), while on
`DynamicCache` the call succeeds (whenever the layer index is addressable
at all, i.e. at most the current layer count, on a cache whose two layer
lists agree — `cache_kwargs` is never consulted). -/
theorem update_kwargs_requirement :
    (∀ (st : SinkCache) (k v : Tensor) (i : Nat),
      st.update k v i none =
        Except.error "AttributeError: NoneType object has no attribute get") ∧
    (∀ (st : StaticCache) (k v : Tensor) (i : Nat),
      st.update k v i none =
        Except.error "AttributeError: NoneType object has no attribute get") ∧
    (∀ (c : DynamicCache) (k v : Tensor) (i : Nat),
      i ≤ c.key_cache.length → c.value_cache.length = c.key_cache.length →
      ∃ r, (c.update k v i none).2 = Except.ok r) := by
  refine ⟨fun _ _ _ _ => rfl, fun _ _ _ _ => rfl, fun c k v i hi hlen => ?_⟩
  simp only [DynamicCache.update]
  set c1 := if i = 0 then { c with seen_tokens := c.seen_tokens + k.length } else c
    with hc1
  have hk1 : c1.key_cache = c.key_cache := by rw [hc1]; split <;> rfl
  have hv1 : c1.value_cache = c.value_cache := by rw [hc1]; split <;> rfl
  rcases Nat.lt_or_ge i c.key_cache.length with hlt | hge
  · have hne : ¬ c1.key_cache.length ≤ i := by rw [hk1]; omega
    rw [if_neg hne]
    have hk : (c1.key_cache.set i (c1.key_cache.getD i [] ++ k))[i]? =
        some (c1.key_cache.getD i [] ++ k) :=
      List.getElem?_set_eq_of_lt _ (by rw [hk1]; exact hlt)
    have hv : (c1.value_cache.set i (c1.value_cache.getD i [] ++ v))[i]? =
        some (c1.value_cache.getD i [] ++ v) :=
      List.getElem?_set_eq_of_lt _ (by rw [hv1]; omega)
    refine ⟨(c1.key_cache.getD i [] ++ k, c1.value_cache.getD i [] ++ v), ?_⟩
    simp only [List.get?_eq_getElem?, hk, hv]
  · have hle : c1.key_cache.length ≤ i := by rw [hk1]; omega
    rw [if_pos hle]
    have heqk : i = c1.key_cache.length := by rw [hk1]; omega
    have heqv : i = c1.value_cache.length := by rw [hv1]; omega
    have hk : (c1.key_cache ++ [k])[i]? = some k := by
      rw [heqk]; exact List.getElem?_concat_length _ _
    have hv : (c1.value_cache ++ [v])[i]? = some v := by
      rw [heqv]; exact List.getElem?_concat_length _ _
    refine ⟨(k, v), ?_⟩
    simp only [List.get?_eq_getElem?, hk, hv]

/-- Witness for C10: on a fresh one-layer-capable state, layer 0 with
`cache_kwargs = None` errors for `SinkCache`/`StaticCache` and succeeds for
`DynamicCache`. -/
theorem update_kwargs_requirement_witness :
    (SinkCache.new 4 1).update [[1]] [[1]] 0 none =
      Except.error "AttributeError: NoneType object has no attribute get" ∧
    (StaticCache.new 1 1 1 8).update [[1]] [[1]] 0 none =
      Except.error "AttributeError: NoneType object has no attribute get" ∧
    ∃ r, (DynamicCache.empty.update [[1]] [[1]] 0 none).2 = Except.ok r :=
  ⟨update_kwargs_requirement.1 (SinkCache.new 4 1) [[1]] [[1]] 0,
   update_kwargs_requirement.2.1 (StaticCache.new 1 1 1 8) [[1]] [[1]] 0,
   update_kwargs_requirement.2.2 DynamicCache.empty [[1]] [[1]] 0
     (by decide) (by decide)⟩

/-- Scattering with an empty value list writes nothing. -/
theorem scatterSeq_nil_vals (buf : Tensor) (ps : List Nat) :
    scatterSeq buf ps [] = buf := by
  cases ps <;> rfl

/-- Unfolding one write of the scatter. -/
theorem scatterSeq_cons (buf : Tensor) (p : Nat) (ps : List Nat) (w : Row) (vs : Tensor) :
    scatterSeq buf (p :: ps) (w :: vs) = scatterSeq (buf.set p w) ps vs := rfl

/-- The scatter never changes the buffer length. -/
theorem scatterSeq_length (ps : List Nat) : ∀ (buf vals : Tensor),
    (scatterSeq buf ps vals).length = buf.length := by
  induction ps with
  | nil => intro buf vals; rfl
  | cons p ps ih =>
    intro buf vals
    cases vals with
    | nil => rw [scatterSeq_nil_vals]
    | cons w vs => rw [scatterSeq_cons, ih]; simp

/-- Frame property of the scatter: indices outside the written positions
keep their previous contents. -/
theorem scatterSeq_getElem?_not_mem (ps : List Nat) : ∀ (buf vals : Tensor) (j : Nat),
    j ∉ ps → (scatterSeq buf ps vals)[j]? = buf[j]? := by
  induction ps with
  | nil => intro buf vals j _; rfl
  | cons p ps ih =>
    intro buf vals j hj
    cases vals with
    | nil => rw [scatterSeq_nil_vals]
    | cons w vs =>
      rw [scatterSeq_cons, ih _ _ _ (fun hmem => hj (List.mem_cons_of_mem _ hmem))]
      have hpj : p ≠ j := fun he => hj (by rw [← he]; exact List.mem_cons_self _ _)
      exact List.getElem?_set_ne hpj

/-- Addressing property of the scatter: with pairwise distinct in-range
positions, each written position holds exactly its incoming row. -/
theorem scatterSeq_getElem?_mem (ps : List Nat) : ∀ (buf vals : Tensor),
    ps.Nodup → ∀ (p : Nat) (w : Row), (p, w) ∈ ps.zip vals → p < buf.length →
    (scatterSeq buf ps vals)[p]? = some w := by
  induction ps with
  | nil => intro buf vals _ p w hp _; simp at hp
  | cons p0 ps ih =>
    intro buf vals hnd p w hp hlt
    cases vals with
    | nil => simp at hp
    | cons w0 vs =>
      rw [List.zip_cons_cons, List.mem_cons] at hp
      rcases hp with heq | hmem
      · obtain ⟨hp0, hw0⟩ := Prod.mk.injEq .. ▸ heq
        subst hp0; subst hw0
        rw [scatterSeq_cons,
          scatterSeq_getElem?_not_mem ps _ _ _ (List.nodup_cons.mp hnd).1]
        exact List.getElem?_set_eq_of_lt _ hlt
      · rw [scatterSeq_cons]
        exact ih _ _ (List.nodup_cons.mp hnd).2 p w hmem (by simpa using hlt)

/-- Claim C7: `StaticCache.update` writes the incoming states exactly into
the sequence slots listed in `cache_position`, leaves every other slot of
the pre-allocated buffer unchanged, returns the entire key and value
buffers, does not depend on `layer_idx`, and never changes the buffer
length. -/
theorem staticcache_update_addressing (st : StaticCache) (k v : Tensor)
    (i j : Nat) (kw : CacheKwargs) (ps : List Nat)
    (hcp : kw.cache_position = some ps) (hnd : ps.Nodup) :
    ∃ st2, st.updateWith k v i kw = Except.ok (st2, st2.key_cache, st2.value_cache) ∧
      st2.key_cache.length = st.key_cache.length ∧
      st2.value_cache.length = st.value_cache.length ∧
      (∀ q, q ∉ ps → st2.key_cache[q]? = st.key_cache[q]? ∧
                     st2.value_cache[q]? = st.value_cache[q]?) ∧
      (∀ p w, (p, w) ∈ ps.zip k → p < st.key_cache.length →
        st2.key_cache[p]? = some w) ∧
      (∀ p w, (p, w) ∈ ps.zip v → p < st.value_cache.length →
        st2.value_cache[p]? = some w) ∧
      st.updateWith k v i kw = st.updateWith k v j kw := by
  refine ⟨{ st with key_cache := scatterSeq st.key_cache ps k,
                    value_cache := scatterSeq st.value_cache ps v }, ?_, ?_, ?_, ?_, ?_, ?_, rfl⟩
  · simp [StaticCache.updateWith, hcp]
  · exact scatterSeq_length ps st.key_cache k
  · exact scatterSeq_length ps st.value_cache v
  · exact fun q hq => ⟨scatterSeq_getElem?_not_mem ps st.key_cache k q hq,
      scatterSeq_getElem?_not_mem ps st.value_cache v q hq⟩
  · exact fun p w hp hlt => scatterSeq_getElem?_mem ps st.key_cache k hnd p w hp hlt
  · exact fun p w hp hlt => scatterSeq_getElem?_mem ps st.value_cache v hnd p w hp hlt

/-- Witness for C7: on a fresh zero-filled 8-slot buffer, writing at
`cache_position = [5, 6, 7]` puts the rows there while slot 0 stays zero. -/
theorem staticcache_update_addressing_witness :
    ∃ st2, (StaticCache.new 1 1 1 8).updateWith [[9], [8], [7]] [[6], [5], [4]] 0
        { cache_position := some [5, 6, 7] } = Except.ok (st2, st2.key_cache, st2.value_cache) ∧
      st2.key_cache[0]? = some [0] ∧ st2.key_cache[5]? = some [9] ∧
      st2.value_cache[7]? = some [4] := by
  obtain ⟨st2, hok, _hlk, _hlv, hframe, hkey, hval, _hlayer⟩ :=
    staticcache_update_addressing (StaticCache.new 1 1 1 8) [[9], [8], [7]] [[6], [5], [4]]
      0 0 { cache_position := some [5, 6, 7] } [5, 6, 7] rfl (by decide)
  refine ⟨st2, hok, ?_, ?_, ?_⟩
  · have h0 := (hframe 0 (by decide)).1
    rw [h0]; rfl
  · exact hkey 5 [9] (by decide) (by decide)
  · exact hval 7 [4] (by decide) (by decide)

/-- One `SinkCache.update` keeps every layer within the window, provided
the incoming chunk satisfies `chunk + sinks < window`: the shifting branch
rebuilds the layer as sinks ++ kept ++ incoming with at most
`S + (W - S - c) + c = W` rows, the growing branch is below the window by
its guard, and a fresh slot holds only the chunk. -/
theorem updateWith_window_bound (st : SinkCache) (k v : Tensor) (i : Nat)
    (kw : CacheKwargs)
    (hc : k.length + st.num_sink_tokens < st.window_length)
    (hinv : ∀ t ∈ st.key_cache, t.length ≤ st.window_length) :
    (∀ t ∈ ((st.updateWith k v i kw).1).key_cache, t.length ≤ st.window_length) ∧
    ((st.updateWith k v i kw).1).window_length = st.window_length ∧
    ((st.updateWith k v i kw).1).num_sink_tokens = st.num_sink_tokens := by
  simp only [SinkCache.updateWith]
  set st1 := (if i = 0 then { st with seen_tokens := st.seen_tokens + k.length } else st)
    with hst1
  have e1 : st1.key_cache = st.key_cache := by rw [hst1]; split <;> rfl
  have e2 : st1.window_length = st.window_length := by rw [hst1]; split <;> rfl
  have e3 : st1.num_sink_tokens = st.num_sink_tokens := by rw [hst1]; split <;> rfl
  split
  · -- fresh layer slot: append the chunk at the end
    refine ⟨?_, e2, e3⟩
    intro t ht
    rcases List.mem_append.mp ht with hmem | hk
    · exact hinv t (e1 ▸ hmem)
    · rw [List.mem_singleton.mp hk]; omega
  · split
    · -- growing branch: guarded by chunk + length < window
      rename_i hnotle hgrow
      rw [SinkCache.get_seq_length, if_neg hnotle] at hgrow
      refine ⟨?_, e2, e3⟩
      intro t ht
      rcases List.mem_or_eq_of_mem_set ht with hmem | heq
      · exact hinv t (e1 ▸ hmem)
      · rw [heq]
        rw [e2] at hgrow
        simp only [List.length_append]
        omega
    · -- shifting branch
      rename_i hnotle hnotgrow
      have hkc := rerotateKeep_key_cache st1 k.length kw.cos kw.sin kw.p_rotation_size
        (pySliceFrom ((st1.num_sink_tokens : Int) + k.length - st1.window_length)
          (st1.key_cache.getD i []))
      have hsk := rerotateKeep_sinks st1 k.length kw.cos kw.sin kw.p_rotation_size
        (pySliceFrom ((st1.num_sink_tokens : Int) + k.length - st1.window_length)
          (st1.key_cache.getD i []))
      have hwd := rerotateKeep_window st1 k.length kw.cos kw.sin kw.p_rotation_size
        (pySliceFrom ((st1.num_sink_tokens : Int) + k.length - st1.window_length)
          (st1.key_cache.getD i []))
      have hlen := rerotateKeep_snd_length_le st1 k.length kw.cos kw.sin kw.p_rotation_size
        (pySliceFrom ((st1.num_sink_tokens : Int) + k.length - st1.window_length)
          (st1.key_cache.getD i []))
      have hkeep : (pySliceFrom ((st1.num_sink_tokens : Int) + k.length - st1.window_length)
          (st1.key_cache.getD i [])).length
            ≤ st.window_length - st.num_sink_tokens - k.length := by
        rw [e2, e3]
        exact keys_to_keep_length_le st.num_sink_tokens k.length st.window_length _
          (by omega)
      refine ⟨?_, by simp only [rerotateKeep_window, e2],
        by simp only [rerotateKeep_sinks, e3]⟩
      intro t ht
      rcases List.mem_or_eq_of_mem_set ht with hmem | heq
      · rw [rerotateKeep_key_cache, e1] at hmem
        exact hinv t hmem
      · rw [heq]
        simp only [List.length_append, List.length_take, rerotateKeep_sinks]
        omega

/-- Any sequence of `SinkCache.update` calls whose chunks all satisfy
`chunk + sinks < window` keeps every layer within the window. -/
theorem runUpdates_window_bound (W S : Nat)
    (steps : List (Tensor × Tensor × Nat × CacheKwargs)) :
    ∀ (st : SinkCache), st.window_length = W → st.num_sink_tokens = S →
    (∀ q ∈ steps, (q.1).length + S < W) →
    (∀ t ∈ st.key_cache, t.length ≤ W) →
    (∀ t ∈ (st.runUpdates steps).key_cache, t.length ≤ W) ∧
    (st.runUpdates steps).window_length = W ∧
    (st.runUpdates steps).num_sink_tokens = S := by
  induction steps with
  | nil => intro st hW hS _ hinv; exact ⟨hinv, hW, hS⟩
  | cons q rest ih =>
    intro st hW hS hsteps hinv
    have hstep := updateWith_window_bound st q.1 q.2.1 q.2.2.1 q.2.2.2
      (by rw [hS, hW]; exact hsteps q (List.mem_cons_self _ _))
      (by rw [hW]; exact hinv)
    have hrun : st.runUpdates (q :: rest) =
        ((st.updateWith q.1 q.2.1 q.2.2.1 q.2.2.2).1).runUpdates rest := rfl
    rw [hrun]
    exact ih ((st.updateWith q.1 q.2.1 q.2.2.1 q.2.2.2).1)
      (by rw [hstep.2.1, hW]) (by rw [hstep.2.2, hS])
      (fun p hp => hsteps p (List.mem_cons_of_mem _ hp))
      (by rw [← hW]; exact hstep.1)

/-- Claim C1 fails as stated: a first chunk longer than the window is
stored unchanged, so a `SinkCache(window_length = 4, num_sink_tokens = 1)`
holds 5 positions after one 5-token update. -/
theorem sinkcache_window_counterexample :
    (((SinkCache.new 4 1).updateWith (List.replicate 5 [1]) (List.replicate 5 [1]) 0
        {}).1).get_seq_length 0 = 5 ∧
    ¬ (((SinkCache.new 4 1).updateWith (List.replicate 5 [1]) (List.replicate 5 [1]) 0
        {}).1).get_seq_length 0 ≤ 4 := by
  decide

/-- Claim C1 (amended): for a `SinkCache` with `window_length = W` and
`num_sink_tokens = S`, after any finite sequence of updates on any layers
whose chunk lengths `c` all satisfy `c + S < W`, every layer reports
`get_seq_length ≤ W`, and `get_max_length` stays `W`.  (As stated the claim
fails: a first chunk longer than `W`, or any chunk of length at least
`W - S`, pushes a layer beyond the window.) -/
theorem sinkcache_window_bound (W S : Nat)
    (steps : List (Tensor × Tensor × Nat × CacheKwargs))
    (hc : ∀ q ∈ steps, (q.1).length + S < W) :
    (∀ lay, ((SinkCache.new W S).runUpdates steps).get_seq_length lay ≤ W) ∧
    ((SinkCache.new W S).runUpdates steps).get_max_length = some W := by
  have h := runUpdates_window_bound W S steps (SinkCache.new W S) rfl rfl hc
    (by intro t ht; simp [SinkCache.new] at ht)
  constructor
  · intro lay
    rcases Nat.lt_or_ge lay (((SinkCache.new W S).runUpdates steps).key_cache.length)
      with hlt | hge
    · rw [SinkCache.get_seq_length, if_neg (Nat.not_le.mpr hlt)]
      refine h.1 _ ?_
      rw [List.getD_eq_getElem _ _ hlt]
      exact List.getElem_mem _
    · rw [SinkCache.get_seq_length, if_pos hge]
      exact Nat.zero_le W
  · rw [SinkCache.get_max_length, h.2.1]

/-- Witness for C1 (amended): window 4, one sink, four two-token chunks
(each `2 + 1 < 4`) leave layer 0 at four positions, within the window. -/
theorem sinkcache_window_bound_witness :
    ((SinkCache.new 4 1).runUpdates
      [(List.replicate 2 [1], List.replicate 2 [1], 0, {}),
       (List.replicate 2 [2], List.replicate 2 [2], 0, {}),
       (List.replicate 2 [3], List.replicate 2 [3], 0, {}),
       (List.replicate 2 [4], List.replicate 2 [4], 0, {})]).get_seq_length 0 ≤ 4 :=
  (sinkcache_window_bound 4 1
    [(List.replicate 2 [1], List.replicate 2 [1], 0, {}),
     (List.replicate 2 [2], List.replicate 2 [2], 0, {}),
     (List.replicate 2 [3], List.replicate 2 [3], 0, {}),
     (List.replicate 2 [4], List.replicate 2 [4], 0, {})] (by decide)).1 0

/-- `getD` after a `set` at a different index is unchanged. -/
theorem getD_set_of_ne (l : List α) (i j : Nat) (a d : α) (h : i ≠ j) :
    (l.set i a).getD j d = l.getD j d := by
  rw [List.getD_eq_getElem?_getD, List.getElem?_set_ne h, ← List.getD_eq_getElem?_getD]

/-- `getD` after a `set` at an in-range index yields the written value. -/
theorem getD_set_self_of_lt (l : List α) (i : Nat) (a d : α) (h : i < l.length) :
    (l.set i a).getD i d = a := by
  rw [List.getD_eq_getElem?_getD, List.getElem?_set_eq_of_lt _ h]; rfl

/-- `getD` below the length of the left list of an append. -/
theorem getD_append_of_lt (l1 l2 : List α) (j : Nat) (d : α) (h : j < l1.length) :
    (l1 ++ l2).getD j d = l1.getD j d := by
  rw [List.getD_eq_getElem?_getD, List.getElem?_append_left h, ← List.getD_eq_getElem?_getD]

/-- Prefixes of a sink-prefixed concatenation: taking `S` rows of
`old.take S ++ rest` recovers `old.take S` whenever `old` has at least `S`
rows. -/
theorem take_sink_concat (old rest : Tensor) (S : Nat) (h : S ≤ old.length) :
    ((old.take S ++ rest).take S) = old.take S := by
  rw [List.take_append_of_le_length (by simpa using h), List.take_take, Nat.min_self]

/-- One `SinkCache.update` call preserves the first `num_sink_tokens`
positions of any layer that already holds at least that many positions, in
both the key and value caches, and keeps those layers that long. -/
theorem updateWith_sink_preserved (st : SinkCache) (k v : Tensor) (i lay : Nat)
    (kw : CacheKwargs)
    (hlay : lay < st.key_cache.length)
    (hks : st.num_sink_tokens ≤ (st.key_cache.getD lay []).length)
    (hvs : st.num_sink_tokens ≤ (st.value_cache.getD lay []).length) :
    ((st.updateWith k v i kw).1).num_sink_tokens = st.num_sink_tokens ∧
    lay < ((st.updateWith k v i kw).1).key_cache.length ∧
    ((((st.updateWith k v i kw).1).key_cache.getD lay []).take st.num_sink_tokens
        = (st.key_cache.getD lay []).take st.num_sink_tokens) ∧
    st.num_sink_tokens ≤ (((st.updateWith k v i kw).1).key_cache.getD lay []).length ∧
    ((((st.updateWith k v i kw).1).value_cache.getD lay []).take st.num_sink_tokens
        = (st.value_cache.getD lay []).take st.num_sink_tokens) ∧
    st.num_sink_tokens ≤ (((st.updateWith k v i kw).1).value_cache.getD lay []).length := by
  simp only [SinkCache.updateWith]
  set st1 := (if i = 0 then { st with seen_tokens := st.seen_tokens + k.length } else st)
    with hst1
  have e1 : st1.key_cache = st.key_cache := by rw [hst1]; split <;> rfl
  have e4 : st1.value_cache = st.value_cache := by rw [hst1]; split <;> rfl
  have e3 : st1.num_sink_tokens = st.num_sink_tokens := by rw [hst1]; split <;> rfl
  have hlay1 : lay < st1.key_cache.length := by rw [e1]; exact hlay
  have hS0 : ¬ lay < st1.value_cache.length → st.num_sink_tokens = 0 := by
    intro hge
    have hd : st.value_cache.getD lay [] = [] :=
      List.getD_eq_default _ _ (by rw [← e4]; omega)
    rw [hd] at hvs; simpa using hvs
  split
  · -- fresh slot appended at the end: lay is strictly below it
    rename_i hle
    have hkey : (st1.key_cache ++ [k]).getD lay [] = st.key_cache.getD lay [] := by
      rw [getD_append_of_lt _ _ _ _ hlay1, e1]
    refine ⟨e3, by simp only [List.length_append]; omega, by rw [hkey],
      by rw [hkey]; exact hks, ?_, ?_⟩
    · by_cases hvlt : lay < st1.value_cache.length
      · rw [getD_append_of_lt _ _ _ _ hvlt, e4]
      · simp [hS0 hvlt]
    · by_cases hvlt : lay < st1.value_cache.length
      · rw [getD_append_of_lt _ _ _ _ hvlt, e4]; exact hvs
      · simp [hS0 hvlt]
  · split
    · -- growing branch: concatenation at layer i
      rename_i hle hgrow
      by_cases hil : i = lay
      · subst hil
        have hkey : ((st1.key_cache.set i (st1.key_cache.getD i [] ++ k)).getD i [])
            = st.key_cache.getD i [] ++ k := by
          rw [getD_set_self_of_lt _ _ _ _ hlay1, e1]
        refine ⟨e3, by rw [List.length_set]; exact hlay1, ?_, ?_, ?_, ?_⟩
        · rw [hkey, List.take_append_of_le_length hks]
        · rw [hkey]; simp only [List.length_append]; omega
        · by_cases hvlt : i < st1.value_cache.length
          · rw [getD_set_self_of_lt _ _ _ _ hvlt, e4,
              List.take_append_of_le_length hvs]
          · simp [hS0 hvlt]
        · by_cases hvlt : i < st1.value_cache.length
          · rw [getD_set_self_of_lt _ _ _ _ hvlt, e4]
            simp only [List.length_append]; omega
          · simp [hS0 hvlt]
      · have hkey : ((st1.key_cache.set i (st1.key_cache.getD i [] ++ k)).getD lay [])
            = st.key_cache.getD lay [] := by
          rw [getD_set_of_ne _ _ _ _ _ hil, e1]
        have hval : ((st1.value_cache.set i (st1.value_cache.getD i [] ++ v)).getD lay [])
            = st.value_cache.getD lay [] := by
          rw [getD_set_of_ne _ _ _ _ _ hil, e4]
        exact ⟨e3, by rw [List.length_set]; exact hlay1, by rw [hkey],
          by rw [hkey]; exact hks, by rw [hval], by rw [hval]; exact hvs⟩
    · -- shifting branch: sinks ++ kept ++ incoming at layer i
      rename_i hle hgrow
      have hsk := rerotateKeep_sinks st1 k.length kw.cos kw.sin kw.p_rotation_size
        (pySliceFrom ((st1.num_sink_tokens : Int) + k.length - st1.window_length)
          (st1.key_cache.getD i []))
      have hvc := rerotateKeep_value_cache st1 k.length kw.cos kw.sin kw.p_rotation_size
        (pySliceFrom ((st1.num_sink_tokens : Int) + k.length - st1.window_length)
          (st1.key_cache.getD i []))
      have hkc := rerotateKeep_key_cache st1 k.length kw.cos kw.sin kw.p_rotation_size
        (pySliceFrom ((st1.num_sink_tokens : Int) + k.length - st1.window_length)
          (st1.key_cache.getD i []))
      by_cases hil : i = lay
      · subst hil
        refine ⟨by rw [hsk, e3], ?_, ?_, ?_, ?_, ?_⟩
        · simp only [List.length_set]
          rw [hkc]; exact hlay1
        · rw [getD_set_self_of_lt _ _ _ _ (by rw [hkc]; exact hlay1)]
          rw [hsk, e3, e1, List.append_assoc]
          exact take_sink_concat _ _ _ hks
        · rw [getD_set_self_of_lt _ _ _ _ (by rw [hkc]; exact hlay1)]
          rw [hsk, e3, e1]
          simp only [List.length_append, List.length_take]
          omega
        · by_cases hvlt : i < st1.value_cache.length
          · rw [getD_set_self_of_lt _ _ _ _ (by rw [hvc]; exact hvlt)]
            rw [hvc, hsk, e4, e3, List.append_assoc]
            exact take_sink_concat _ _ _ hvs
          · simp [hS0 hvlt]
        · by_cases hvlt : i < st1.value_cache.length
          · rw [getD_set_self_of_lt _ _ _ _ (by rw [hvc]; exact hvlt)]
            rw [hvc, hsk, e4, e3]
            simp only [List.length_append, List.length_take]
            omega
          · simp [hS0 hvlt]
      · refine ⟨by rw [hsk, e3], ?_, ?_, ?_, ?_, ?_⟩
        · simp only [List.length_set]; rw [hkc]; exact hlay1
        · rw [getD_set_of_ne _ _ _ _ _ hil, hkc, e1]
        · rw [getD_set_of_ne _ _ _ _ _ hil, hkc, e1]; exact hks
        · rw [getD_set_of_ne _ _ _ _ _ hil, hvc, e4]
        · rw [getD_set_of_ne _ _ _ _ _ hil, hvc, e4]; exact hvs

/-- Claim C6: for a `SinkCache` with `num_sink_tokens = S`, any layer that
already holds at least `S` positions keeps the contents of its first `S`
key and value positions across every subsequent sequence of updates,
whatever the chunk lengths, layers and rotary settings of those updates. -/
theorem sinkcache_sink_preservation
    (steps : List (Tensor × Tensor × Nat × CacheKwargs)) :
    ∀ (st : SinkCache) (lay : Nat), lay < st.key_cache.length →
    st.num_sink_tokens ≤ (st.key_cache.getD lay []).length →
    st.num_sink_tokens ≤ (st.value_cache.getD lay []).length →
    ((st.runUpdates steps).key_cache.getD lay []).take st.num_sink_tokens
        = (st.key_cache.getD lay []).take st.num_sink_tokens ∧
    ((st.runUpdates steps).value_cache.getD lay []).take st.num_sink_tokens
        = (st.value_cache.getD lay []).take st.num_sink_tokens := by
  induction steps with
  | nil => intro st lay _ _ _; exact ⟨rfl, rfl⟩
  | cons q rest ih =>
    intro st lay hlay hks hvs
    obtain ⟨hsk, hlay2, hktake, hklen, hvtake, hvlen⟩ :=
      updateWith_sink_preserved st q.1 q.2.1 q.2.2.1 lay q.2.2.2 hlay hks hvs
    have hrun : st.runUpdates (q :: rest) =
        ((st.updateWith q.1 q.2.1 q.2.2.1 q.2.2.2).1).runUpdates rest := rfl
    rw [hrun]
    have hrec := ih ((st.updateWith q.1 q.2.1 q.2.2.1 q.2.2.2).1) lay hlay2
      (by rw [hsk]; exact hklen) (by rw [hsk]; exact hvlen)
    rw [hsk] at hrec
    exact ⟨hrec.1.trans hktake, hrec.2.trans hvtake⟩

/-- Witness for C6: a one-layer `SinkCache` (window 4, two sinks) holding
marker rows keeps them in the first two positions through two overflowing
updates. -/
theorem sinkcache_sink_preservation_witness :
    (((SinkCache.mk [[[7], [8], [9]]] [[[17], [18], [19]]] 4 2 [] 0).runUpdates
        [([[30], [31]], [[40], [41]], 0, {}), ([[32], [33]], [[42], [43]], 0, {})]).key_cache.getD
          0 []).take 2 = [[7], [8]] ∧
    (((SinkCache.mk [[[7], [8], [9]]] [[[17], [18], [19]]] 4 2 [] 0).runUpdates
        [([[30], [31]], [[40], [41]], 0, {}), ([[32], [33]], [[42], [43]], 0, {})]).value_cache.getD
          0 []).take 2 = [[17], [18]] := by
  have h := sinkcache_sink_preservation
    [([[30], [31]], [[40], [41]], 0, {}), ([[32], [33]], [[42], [43]], 0, {})]
    (SinkCache.mk [[[7], [8], [9]]] [[[17], [18], [19]]] 4 2 [] 0) 0
    (by decide) (by decide) (by decide)
  exact ⟨by simpa using h.1, by simpa using h.2⟩

/-- The rerotation pair as the spec words it, over the window-truncated
tables: `original` = the rows starting at `S + c`, `shifted` = the rows
from `S` up to the table length (the window) minus `c`, and
`rerotation_cos = original_cos*shifted_cos + original_sin*shifted_sin`,
`rerotation_sin = -original_sin*shifted_cos + original_cos*shifted_sin`. -/
def rerotationFromSpec (S c : Nat) (cos sin : Tensor) : Tensor × Tensor :=
  let ocos := cos.drop (S + c)
  let scos := (cos.drop S).take (cos.length - c - S)
  let osin := sin.drop (S + c)
  let ssin := (sin.drop S).take (sin.length - c - S)
  (tAdd (tMul ocos scos) (tMul osin ssin),
   tAdd (tMul (tNeg osin) scos) (tMul ocos ssin))

/-- The Python slice `x[a:-b]` with `b ≥ 1` is the rows from `a` up to
`length - b`. -/
theorem pySliceToNegEnd_eq (a b : Nat) (hb : 1 ≤ b) (xs : List α) :
    pySliceToNegEnd a b xs = (xs.drop a).take (xs.length - b - a) := by
  unfold pySliceToNegEnd
  rw [if_neg (by omega), List.drop_take]

/-- Cache-miss `rerotateKeep` with RoPE tables and no partial rotation:
compute the rerotation pair over the window-truncated tables, memoize it,
and rotate the whole kept rows. -/
theorem rerotateKeep_rope_none (st : SinkCache) (c : Nat) (cosT sinT : Tensor)
    (keep : Tensor) (hmiss : st.cos_sin_cache.lookup c = none) :
    st.rerotateKeep c (some cosT) (some sinT) none keep =
      ({ st with cos_sin_cache := (c, computeRerotation st.num_sink_tokens c
          (cosT.take st.window_length) (sinT.take st.window_length)) :: st.cos_sin_cache },
       SinkCache.apply_key_rotary_pos_emb keep
         (computeRerotation st.num_sink_tokens c (cosT.take st.window_length)
           (sinT.take st.window_length)).1
         (computeRerotation st.num_sink_tokens c (cosT.take st.window_length)
           (sinT.take st.window_length)).2) := by
  unfold SinkCache.rerotateKeep SinkCache.get_rerotation_cos_sin
  simp [hmiss]

/-- Cache-miss `rerotateKeep` with RoPE tables and a partial rotation
size: only the leading `r` entries of each kept row are rotated; the rest
pass through and are re-concatenated. -/
theorem rerotateKeep_rope_some (st : SinkCache) (c r : Nat) (cosT sinT : Tensor)
    (keep : Tensor) (hmiss : st.cos_sin_cache.lookup c = none) :
    st.rerotateKeep c (some cosT) (some sinT) (some r) keep =
      ({ st with cos_sin_cache := (c, computeRerotation st.num_sink_tokens c
          (cosT.take st.window_length) (sinT.take st.window_length)) :: st.cos_sin_cache },
       List.zipWith (fun a b => a ++ b)
         (SinkCache.apply_key_rotary_pos_emb (keep.map (fun row => row.take r))
           (computeRerotation st.num_sink_tokens c (cosT.take st.window_length)
             (sinT.take st.window_length)).1
           (computeRerotation st.num_sink_tokens c (cosT.take st.window_length)
             (sinT.take st.window_length)).2)
         (keep.map (fun row => row.drop r))) := by
  unfold SinkCache.rerotateKeep SinkCache.get_rerotation_cos_sin
  simp [hmiss]

/-- Claim C2: on the SinkCache eviction path with rotary embeddings, the
rerotation pair is computed exactly as the spec formula over the
window-truncated tables (`computeRerotation` is the source's slicing with a
Python negative-end slice; `rerotationFromSpec` is the spec's wording);
`rotate_half` maps a row split into equal halves to
`concat(-second_half, first_half)`; and the updated key layer is
`sinks ++ (key*rerotation_cos + rotate_half(key)*rerotation_sin) ++ incoming`
on the kept rows — with only the leading `partial_rotation_size` slice
rotated and the remainder re-concatenated when that kwarg is set.  (Numeric
values are exact in the model; float32 round-trips are identities.) -/
theorem sinkcache_rerotation_formula :
    (∀ (S c : Nat) (cosT sinT : Tensor), 1 ≤ c →
      computeRerotation S c cosT sinT = rerotationFromSpec S c cosT sinT) ∧
    (∀ x1 x2 : Row, x1.length = x2.length →
      rotate_half_row (x1 ++ x2) = x2.map (fun a => -a) ++ x1) ∧
    (∀ key cos sin : Tensor, SinkCache.apply_key_rotary_pos_emb key cos sin =
      tAdd (tMul key cos) (tMul (SinkCache.rotate_half key) sin)) ∧
    (∀ (st : SinkCache) (k v : Tensor) (i : Nat) (kw : CacheKwargs)
        (cosT sinT : Tensor),
      kw.cos = some cosT → kw.sin = some sinT →
      st.cos_sin_cache.lookup k.length = none →
      i < st.key_cache.length →
      st.window_length ≤ k.length + st.get_seq_length i →
      1 ≤ k.length →
      (kw.p_rotation_size = none →
        ((st.updateWith k v i kw).1).key_cache.getD i [] =
          (st.key_cache.getD i []).take st.num_sink_tokens ++
          (SinkCache.apply_key_rotary_pos_emb
            (pySliceFrom ((st.num_sink_tokens : Int) + k.length - st.window_length)
              (st.key_cache.getD i []))
            (rerotationFromSpec st.num_sink_tokens k.length
              (cosT.take st.window_length) (sinT.take st.window_length)).1
            (rerotationFromSpec st.num_sink_tokens k.length
              (cosT.take st.window_length) (sinT.take st.window_length)).2 ++ k)) ∧
      (∀ r : Nat, kw.p_rotation_size = some r →
        ((st.updateWith k v i kw).1).key_cache.getD i [] =
          (st.key_cache.getD i []).take st.num_sink_tokens ++
          (List.zipWith (fun a b => a ++ b)
            (SinkCache.apply_key_rotary_pos_emb
              ((pySliceFrom ((st.num_sink_tokens : Int) + k.length - st.window_length)
                (st.key_cache.getD i [])).map (fun row => row.take r))
              (rerotationFromSpec st.num_sink_tokens k.length
                (cosT.take st.window_length) (sinT.take st.window_length)).1
              (rerotationFromSpec st.num_sink_tokens k.length
                (cosT.take st.window_length) (sinT.take st.window_length)).2)
            ((pySliceFrom ((st.num_sink_tokens : Int) + k.length - st.window_length)
                (st.key_cache.getD i [])).map (fun row => row.drop r)) ++ k))) := by
  have hspec : ∀ (S c : Nat) (cosT sinT : Tensor), 1 ≤ c →
      computeRerotation S c cosT sinT = rerotationFromSpec S c cosT sinT := by
    intro S c cosT sinT hc
    unfold computeRerotation rerotationFromSpec
    rw [pySliceToNegEnd_eq _ _ hc, pySliceToNegEnd_eq _ _ hc]
  refine ⟨hspec, ?_, fun _ _ _ => rfl, ?_⟩
  · intro x1 x2 h
    unfold rotate_half_row
    have hhalf : (x1 ++ x2).length / 2 = x1.length := by
      simp only [List.length_append]; omega
    rw [hhalf, List.take_left, List.drop_left]
  · intro st k v i kw cosT sinT hcos hsin hmiss hle hgrow hc
    constructor
    · intro hpr
      simp only [SinkCache.updateWith]
      set st1 := (if i = 0 then { st with seen_tokens := st.seen_tokens + k.length }
        else st) with hst1
      have e1 : st1.key_cache = st.key_cache := by rw [hst1]; split <;> rfl
      have e2 : st1.window_length = st.window_length := by rw [hst1]; split <;> rfl
      have e3 : st1.num_sink_tokens = st.num_sink_tokens := by rw [hst1]; split <;> rfl
      have e5 : st1.cos_sin_cache = st.cos_sin_cache := by rw [hst1]; split <;> rfl
      have hseq : st1.get_seq_length i = st.get_seq_length i := by
        unfold SinkCache.get_seq_length; rw [e1]
      rw [if_neg (by rw [e1]; omega), if_neg (by rw [hseq, e2]; omega)]
      rw [hcos, hsin, hpr,
        rerotateKeep_rope_none st1 k.length cosT sinT _ (by rw [e5]; exact hmiss)]
      rw [getD_set_self_of_lt _ _ _ _ (by rw [e1]; exact hle)]
      rw [hspec _ _ _ _ hc, e1, e2, e3]
      dsimp only
      rw [List.append_assoc]
    · intro r hpr
      simp only [SinkCache.updateWith]
      set st1 := (if i = 0 then { st with seen_tokens := st.seen_tokens + k.length }
        else st) with hst1
      have e1 : st1.key_cache = st.key_cache := by rw [hst1]; split <;> rfl
      have e2 : st1.window_length = st.window_length := by rw [hst1]; split <;> rfl
      have e3 : st1.num_sink_tokens = st.num_sink_tokens := by rw [hst1]; split <;> rfl
      have e5 : st1.cos_sin_cache = st.cos_sin_cache := by rw [hst1]; split <;> rfl
      have hseq : st1.get_seq_length i = st.get_seq_length i := by
        unfold SinkCache.get_seq_length; rw [e1]
      rw [if_neg (by rw [e1]; omega), if_neg (by rw [hseq, e2]; omega)]
      rw [hcos, hsin, hpr,
        rerotateKeep_rope_some st1 k.length r cosT sinT _ (by rw [e5]; exact hmiss)]
      rw [getD_set_self_of_lt _ _ _ _ (by rw [e1]; exact hle)]
      rw [hspec _ _ _ _ hc, e1, e2, e3]
      dsimp only
      rw [List.append_assoc]

/-- Witness for C2: a concrete shifting update (window 4, one sink, three
cached rows, two incoming rows, full-row rotation) produces exactly
sinks ++ rerotated kept rows ++ incoming with the spec's rerotation pair. -/
theorem sinkcache_rerotation_formula_witness :
    (((SinkCache.mk [[[1, 2], [3, 4], [5, 6]]] [[[0], [0], [0]]] 4 1 [] 0).updateWith
        [[9, 9], [8, 8]] [[7], [7]] 0
        { sin := some [[100], [101], [102], [103], [104]],
          cos := some [[10], [11], [12], [13], [14]] }).1).key_cache.getD 0 [] =
      ([[1, 2], [3, 4], [5, 6]] : Tensor).take 1 ++
      (SinkCache.apply_key_rotary_pos_emb
        (pySliceFrom ((1 : Int) + 2 - 4) [[1, 2], [3, 4], [5, 6]])
        (rerotationFromSpec 1 2 (([[10], [11], [12], [13], [14]] : Tensor).take 4)
          (([[100], [101], [102], [103], [104]] : Tensor).take 4)).1
        (rerotationFromSpec 1 2 (([[10], [11], [12], [13], [14]] : Tensor).take 4)
          (([[100], [101], [102], [103], [104]] : Tensor).take 4)).2 ++
        [[9, 9], [8, 8]]) :=
  (sinkcache_rerotation_formula.2.2.2
    (SinkCache.mk [[[1, 2], [3, 4], [5, 6]]] [[[0], [0], [0]]] 4 1 [] 0)
    [[9, 9], [8, 8]] [[7], [7]] 0
    { sin := some [[100], [101], [102], [103], [104]],
      cos := some [[10], [11], [12], [13], [14]] }
    [[10], [11], [12], [13], [14]] [[100], [101], [102], [103], [104]]
    rfl rfl rfl (by decide) (by decide) (by decide)).1 rfl

end CacheUtils
